import Mathlib

/-!
Shallow embedding of the `bloodparser` extraction-and-normalization pipeline
(`src/bloodparser/utils.py`, `extract.py`, `normalize.py`, `units.py`).

Conventions of the embedding:
* Python `float` values are modelled as `ℚ` (all numbers reaching the pipeline
  are parsed from finite decimal literals).
* Python `None` is modelled with `Option`.
* Python operations that can raise (list indexing) return `Except Unit`.
* Python `dict`s (insertion-ordered, key-unique) are modelled as association
  lists with an insert-or-overwrite operation `dictInsert`.
* The `rapidfuzz` similarity functions (`fuzz.WRatio`, `fuzz.partial_ratio`,
  `fuzz.token_sort_ratio`, `fuzz.token_set_ratio`) are a third-party library,
  not part of this repository; they are modelled as an abstract oracle
  parameter `SimOracle`, so all theorems about the matcher hold for every
  behaviour of that library.
-/

namespace BloodPdf

/-- Characters treated as whitespace by the Python code
(ASCII whitespace; `clean_text` additionally maps NBSP and zero-width space
to a plain space before splitting). -/
def pythonWs (c : Char) : Bool :=
  c = ' ' || c = '\t' || c = '\n' || c = '\r' || c = '\x0b' || c = '\x0c'

/-- Maximal whitespace-separated tokens of a char list (Python `s.split()`),
computed by a right fold carrying the current run. -/
def wsTokens (cs : List Char) : List (List Char) :=
  let st := cs.foldr
    (fun c st =>
      if pythonWs c then
        (if st.2 = ([] : List Char) then st.1 else st.2 :: st.1, ([] : List Char))
      else (st.1, c :: st.2))
    (([] : List (List Char)), ([] : List Char))
  if st.2 = ([] : List Char) then st.1 else st.2 :: st.1

/-- `clean_text` from `utils.py`: replace NBSP/zero-width-space by a space,
strip, and collapse internal whitespace runs to a single space (splitting
into whitespace-separated words and rejoining realizes strip + collapse). -/
def clean_text (s : String) : String :=
  let cs := s.data.map (fun c => if c = '\u00A0' || c = '\u200B' then ' ' else c)
  String.intercalate " " ((wsTokens cs).map String.mk)

/-- Python `str.lower` (ASCII case folding suffices for this pipeline). -/
def lowerStr (s : String) : String :=
  String.mk (s.data.map Char.toLower)

/-- Python `needle in hay` substring test on char lists. -/
def containsChars : List Char → List Char → Bool
  | _, [] => true
  | [], _ :: _ => false
  | h :: hs', needle => needle.isPrefixOf (h :: hs') || containsChars hs' needle

/-- Python `needle in hay` substring test on strings. -/
def containsStr (hay needle : String) : Bool :=
  containsChars hay.data needle.data

/-- Python `str.strip()`. -/
def stripStr (s : String) : String :=
  String.mk (((s.data.dropWhile pythonWs).reverse.dropWhile pythonWs).reverse)

/-- Digits of a char list interpreted as a natural number. -/
def digitsToNat (cs : List Char) : Nat :=
  cs.foldl (fun acc c => acc * 10 + (c.toNat - '0'.toNat)) 0

/-- The unsigned core of the Python `float(...)` model: integer digits,
optional fractional part. Returns `none` on any other shape (Python would
raise `ValueError`, which the source catches). -/
def parseFloatCore (cs : List Char) : Option ℚ :=
  let ip := cs.takeWhile Char.isDigit
  let rest := cs.dropWhile Char.isDigit
  match rest with
  | [] => if ip = [] then none else some ((digitsToNat ip : ℚ))
  | '.' :: fs =>
    if fs.all Char.isDigit ∧ (ip ≠ [] ∨ fs ≠ []) then
      some ((digitsToNat ip : ℚ) + (digitsToNat fs : ℚ) / (10 : ℚ) ^ fs.length)
    else none
  | _ => none

/-- Model of Python `float(...)` on the shapes the regexes can produce:
optional sign in front of the unsigned core. -/
def parseFloatQ (s : String) : Option ℚ :=
  match s.data with
  | '-' :: cs => (parseFloatCore cs).map (fun q => -q)
  | cs => parseFloatCore cs

/-- `NUM_RE` / the inline pattern of `parse_number`: leftmost match of
`-?\d+(?:[\.,]\d+)?`, returned as the matched text. Greedy with no
continuation, so maximal munch at the leftmost viable position. -/
def matchNumGreedy (cs : List Char) : Option (List Char) :=
  let unsigned : List Char → Option (List Char) := fun cs =>
    let ds := cs.takeWhile Char.isDigit
    if ds = [] then none
    else
      match cs.dropWhile Char.isDigit with
      | c :: r2 =>
        if c = '.' ∨ c = ',' then
          let fs := r2.takeWhile Char.isDigit
          if fs = [] then some ds else some (ds ++ c :: fs)
        else some ds
      | [] => some ds
  match cs with
  | '-' :: r => (unsigned r).map (fun n => '-' :: n)
  | _ => unsigned cs

/-- Leftmost search for `matchNumGreedy`. -/
def searchNum : List Char → Option (List Char)
  | [] => none
  | c :: rest => matchNumGreedy (c :: rest) <|> searchNum rest

/-- `parse_number` from `utils.py`: first number anywhere in the string,
comma decimal separator normalized to a period. -/
def parse_number (s : String) : Option ℚ :=
  match searchNum s.data with
  | none => none
  | some n => parseFloatQ (String.mk (n.map (fun c => if c = ',' then '.' else c)))

/-- The unit alternation of `UNIT_INLINE_RE` in `utils.py`, in the source's
alternation order (`re.IGNORECASE` is applied at match time). -/
def unitTokens : List String :=
  ["%", "mg/dl", "mg/L", "g/dl", "pg/mL", "ng/ml", "µIU/mL", "mIU/L", "U/L",
   "mmol/L", "mEq/L", "mL/min/1.73m2", "10^3/uL", "10^3/µl", "10^6/µl",
   "fL", "pg", "g/dL", "gm/dl", "Ratio", "mm/1st hour"]

/-- Case-insensitive prefix test returning the matched original-case prefix
of `cs` when the token `t` matches there and is followed by whitespace or
end-of-string (the `(?:\s|$)` tail of `UNIT_INLINE_RE`). -/
def unitTokenAt (t : String) (cs : List Char) : Option (List Char) :=
  let tc := t.data
  let pre := cs.take tc.length
  let follow : Bool :=
    match cs.drop tc.length with
    | [] => true
    | c :: _ => pythonWs c
  if pre.length = tc.length ∧ pre.map Char.toLower = tc.map Char.toLower ∧ follow = true then
    some pre
  else none

/-- Regex alternation over the unit tokens: first token (in source order)
that matches at this position with a valid follow set wins; a failed follow
check backtracks into the next alternative, as the regex engine does. -/
def tryUnits : List String → List Char → Option (List Char)
  | [], _ => none
  | t :: ts, cs =>
    match unitTokenAt t cs with
    | some pre => some pre
    | none => tryUnits ts cs

/-- Backtracking candidates for the optional `(?:[\.,]\d+)?` group at `cs`:
with-fraction splits first (fraction digits longest first), then the empty
option, matching the regex's greedy exploration order. Each candidate is
`(matched chars, rest)`. -/
def fracCandidates (cs : List Char) : List (List Char × List Char) :=
  match cs with
  | c :: rest =>
    if c = '.' ∨ c = ',' then
      let ds := rest.takeWhile Char.isDigit
      if ds = [] then [([], cs)]
      else
        ((List.range ds.length).map
          (fun k =>
            let m := ds.length - k
            (c :: ds.take m, ds.drop m ++ rest.dropWhile Char.isDigit))) ++ [([], cs)]
    else [([], cs)]
  | [] => [([], [])]

/-- Backtracking candidates for the unsigned part `\d+(?:[\.,]\d+)?` at
`cs`, in the regex's exploration order: integer digits longest first, then
fraction candidates. Each candidate is `(matched chars, rest)`. -/
def unsignedNumCandidates (cs : List Char) : List (List Char × List Char) :=
  let ds := cs.takeWhile Char.isDigit
  if ds = [] then []
  else
    (List.range ds.length).flatMap
      (fun k =>
        let l := ds.length - k
        (fracCandidates (ds.drop l ++ cs.dropWhile Char.isDigit)).map
          (fun fr => (ds.take l ++ fr.1, fr.2)))

/-- Backtracking candidates for `-?\d+(?:[\.,]\d+)?` at `cs`: the optional
sign, then the unsigned candidates. Each candidate is
`(group-1 chars, rest)`. -/
def numberCandidates (cs : List Char) : List (List Char × List Char) :=
  match cs with
  | '-' :: r => (unsignedNumCandidates r).map (fun nr => ('-' :: nr.1, nr.2))
  | _ => unsignedNumCandidates cs

/-- One match attempt of `UNIT_INLINE_RE` anchored at `cs`: number group,
`\s*` (maximal munch is safe: no unit token begins with whitespace), then
the unit alternation. Returns `(group 1, group 2)`. -/
def inlineMatchAt (cs : List Char) : Option (List Char × List Char) :=
  (numberCandidates cs).findSome?
    (fun nr =>
      (tryUnits unitTokens (nr.2.dropWhile pythonWs)).map (fun u => (nr.1, u)))

/-- `UNIT_INLINE_RE.search`: leftmost successful match attempt. -/
def searchInline : List Char → Option (List Char × List Char)
  | [] => none
  | c :: rest => inlineMatchAt (c :: rest) <|> searchInline rest

/-- Separator class of the split in `find_value_and_unit`: `[,\s]`. -/
def partSep (c : Char) : Bool :=
  c = ',' || pythonWs c

/-- Worker for `splitParts`; the fuel (initially the list length, which
bounds the recursion depth) keeps the recursion structural. -/
def splitPartsAux : Nat → List Char → List Char → List (List Char)
  | _, [], acc => [acc.reverse]
  | 0, c :: rest, acc => [acc.reverse ++ c :: rest]
  | fuel + 1, c :: rest, acc =>
    if partSep c then acc.reverse :: splitPartsAux fuel (rest.dropWhile partSep) []
    else splitPartsAux fuel rest (c :: acc)

/-- `re.split(r"[,\s]+", s)`: segments between maximal runs of commas and
whitespace, keeping empty boundary segments as Python does. -/
def splitParts (cs : List Char) : List (List Char) :=
  splitPartsAux cs.length cs []

/-- The anchored bare-number shape `^\d+(?:\.\d+)?$` used by the second
strategy of `find_value_and_unit` (period separator only, no sign). -/
def bareNumShape (cs : List Char) : Bool :=
  let ds := cs.takeWhile Char.isDigit
  if ds = [] then false
  else
    match cs.dropWhile Char.isDigit with
    | [] => true
    | '.' :: fs => fs ≠ [] && fs.all Char.isDigit
    | _ => false

/-- `find_value_and_unit` from `utils.py`: (1) inline number+unit search,
(2) bare plausible value (in `[0.1, 1000]`) among comma/whitespace-separated
parts, (3) `parse_number` fallback. -/
def find_value_and_unit (s : String) : Option ℚ × Option String :=
  let s2 := clean_text s
  match searchInline s2.data with
  | some m =>
    let val := String.mk (m.1.map (fun c => if c = ',' then '.' else c))
    (parseFloatQ val, some (String.mk m.2))
  | none =>
    match (splitParts s2.data).findSome?
      (fun part =>
        if bareNumShape part then
          match parseFloatQ (String.mk part) with
          | some v => if 1/10 ≤ v ∧ v ≤ 1000 then some v else none
          | none => none
        else none) with
    | some v => (some v, none)
    | none => (parse_number s2, none)

/-- The explanatory-text denylist of `_parse_text_lines` (`extract.py` line 100), in source order. -/
def lineDenyWords : List String :=
  ["comment", "interpretation", "range", "goal", "level", "means", "person",
   "diabetes", "risk", "treatment", "factor", "condition", "disorder",
   "disease", "inflammation", "marker", "assessment", "evaluation",
   "management", "prevention", "modification", "therapy", "replacement",
   "hormone", "pregnancy", "obese", "arthritis", "autoimmune",
   "inflammatory", "bowel", "pelvic", "necrosis", "infection", "injury",
   "tissue", "birth", "control", "pill", "estrogen", "recovery", "earlier",
   "intensity", "rise", "unlike", "influenced", "hematologic", "anemia",
   "polycythemia", "sugar", "stays", "high", "healthcare", "provider",
   "change", "plan", "integrated", "preceding", "weeks", "affected",
   "daily", "fluctuation", "exercise", "recent", "food", "intake",
   "derivatives", "carbamylated", "patients", "renal", "failure", "affect",
   "accuracy", "measurements", "erythrocyte", "recovery", "acute", "blood",
   "loss", "hemolytic", "hbss", "hbcc", "hbsc", "falsely", "lower", "test",
   "results", "regardless", "assay", "method", "used", "iron", "deficiency",
   "associated", "higher", "presence", "variants", "conditions", "red",
   "cell", "turnover", "must", "considered", "particularly", "when",
   "result", "does", "not", "correlate", "with", "glucose", "levels",
   "impaired", "tolerance", "igt", "increased", "developing", "type",
   "diabetes", "but", "does", "not", "have", "yet", "level", "above",
   "confirmed", "repeating", "another", "day", "means", "person", "has",
   "diabetes", "hrs", "post", "meal", "hour", "after", "less", "than",
   "before", "males", "smoking", "tobacco", "use", "pressure", "low", "hdl",
   "sugar", "free"]

/-- The `explanatory_words` denylist of `score_match` (`normalize.py` line 132), in source order (duplicates included as written). -/
def explanatoryWords : List String :=
  ["comment", "interpretation", "range", "goal", "level", "means", "person",
   "diabetes", "risk", "treatment", "factor", "condition", "disorder",
   "disease", "inflammation", "marker", "assessment", "evaluation",
   "management", "prevention", "modification", "therapy", "replacement",
   "hormone", "pregnancy", "obese", "arthritis", "autoimmune",
   "inflammatory", "bowel", "pelvic", "necrosis", "infection", "injury",
   "tissue", "birth", "control", "pill", "estrogen", "recovery", "earlier",
   "intensity", "rise", "unlike", "influenced", "hematologic", "anemia",
   "polycythemia", "sugar", "stays", "high", "healthcare", "provider",
   "change", "plan", "integrated", "preceding", "weeks", "affected",
   "daily", "fluctuation", "exercise", "recent", "food", "intake",
   "derivatives", "carbamylated", "patients", "renal", "failure", "affect",
   "accuracy", "measurements", "erythrocyte", "recovery", "acute", "blood",
   "loss", "hemolytic", "hbss", "hbcc", "hbsc", "falsely", "lower", "test",
   "results", "regardless", "assay", "method", "used", "iron", "deficiency",
   "associated", "higher", "presence", "variants", "conditions", "red",
   "cell", "turnover", "must", "considered", "particularly", "when",
   "result", "does", "not", "correlate", "with", "glucose", "levels",
   "impaired", "tolerance", "igt", "increased", "developing", "type",
   "diabetes", "but", "does", "not", "have", "yet", "level", "above",
   "confirmed", "repeating", "another", "day", "means", "person", "has",
   "diabetes", "hrs", "post", "meal", "hour", "after", "less", "than",
   "before", "males", "smoking", "tobacco", "use", "pressure", "low", "hdl",
   "sugar", "free", "concentrations", "about", "prevalence", "estimated",
   "metabolism", "regulation", "pth", "metabolites", "fibroblast", "growth",
   "factor", "subject", "circadian", "variation", "reaching", "peak",
   "levels", "between", "secreted", "dual", "fashion", "intermittent",
   "pulses", "constitute", "background", "continuous", "secretion",
   "changes", "thyroid", "status", "typically", "associated", "concordant",
   "changes", "patients", "hyperthyroidism", "identify", "decreased",
   "levels", "megaloblastic", "anemia", "infantile", "alcoholism",
   "malnutrition", "scurvy", "liver", "disease", "calculation", "based",
   "categories", "defined", "acc", "kdigo", "advised", "estimate", "using",
   "cystatin", "confirmation", "ckd", "value", "category", "terms", "ml",
   "min", "sq", "m", "prevalence", "estimated"]

/-- The `test_indicators` vocabulary of `score_match` (`normalize.py` line 137). -/
def testIndicators : List String :=
  ["test", "result", "unit", "method", "hplc", "turbidimetry", "hexokinase",
   "calculated", "certified", "fasting", "plasma", "glucose", "sensitivity",
   "crp", "glycosylated", "hemoglobin", "hba1c", "cholesterol", "hdl",
   "ldl", "vldl", "triglyceride", "creatinine", "calcium", "phosphorus",
   "uric", "acid", "vitamin", "thyroid", "tsh", "bilirubin", "albumin",
   "protein", "sodium", "potassium", "chloride", "urea", "nitrogen", "bun",
   "ast", "alt", "alkaline", "phosphatase"]

/-- A raw candidate triple `(label, value, unit)`. -/
abbrev Triple := String × Option ℚ × Option String

/-- The three header column indices, present only when a header row was
found (`_header_indices` either fills all three or reports no header). -/
structure HeaderCols where
  test : Nat
  result : Nat
  unit : Nat
deriving DecidableEq, Repr

/-- The inner loop of `_header_indices` over one (lowercased) row: each cell
may claim each of the three roles, first-found column index winning. -/
def headerRowScan (row : List String) : Option Nat × Option Nat × Option Nat :=
  row.enum.foldl
    (fun got jc =>
      let j := jc.1
      let cell := lowerStr jc.2
      let t := if containsStr cell "test" || containsStr cell "investigation" ||
          containsStr cell "parameter" then got.1 <|> some j else got.1
      let r := if containsStr cell "result" || containsStr cell "value" then
          got.2.1 <|> some j else got.2.1
      let u := if containsStr cell "unit" || containsStr cell "units" then
          got.2.2 <|> some j else got.2.2
      (t, r, u))
    (none, none, none)

/-- `_header_indices` from `extract.py`: first row among the first five whose
scan fills all three roles. -/
def header_indices (rows : List (List String)) : Option (Nat × HeaderCols) :=
  (rows.take 5).enum.findSome?
    (fun ir =>
      match headerRowScan ir.2 with
      | (some t, some r, some u) => some (ir.1, ⟨t, r, u⟩)
      | _ => none)

/-- Python list indexing, which raises `IndexError` out of bounds. -/
def pyIndex (r : List String) (i : Nat) : Except Unit String :=
  match r.get? i with
  | some x => Except.ok x
  | none => Except.error ()

/-- Python `a or b` for an optional string `a` ("" is falsy). -/
def pyOrStr (a b : Option String) : Option String :=
  match a with
  | some s => if s ≠ "" then some s else b
  | none => b

/-- One data row of `_parse_table` when a header was found: the three column
cells are indexed (which can raise on a short row), the result cell is
scanned, and the unit column backs up a missing inline unit. A row whose
cleaned label is empty yields no triple. -/
def parseRowHeader (cols : HeaderCols) (r : List String) : Except Unit (Option Triple) := do
  let testCell ← pyIndex r cols.test
  let resCell ← pyIndex r cols.result
  let unitCell ← pyIndex r cols.unit
  let test := clean_text testCell
  let vu := find_value_and_unit resCell
  let u : Option String :=
    if unitCell ≠ "" ∧ vu.2 = none then some (clean_text unitCell)
    else pyOrStr vu.2 (if unitCell ≠ "" then some (clean_text unitCell) else none)
  let v := vu.1 <|> parse_number resCell
  pure (if test ≠ "" then some (test, v, u) else none)

/-- One row of `_parse_table` when no header was found: column 0 is the
label, the joined remaining columns the result, no unit column. -/
def parseRowNoHeader (r : List String) : Option Triple :=
  let test := clean_text (r.headD "")
  let res := if r.length > 1 then String.intercalate " " (r.drop 1) else ""
  let vu := find_value_and_unit res
  let u : Option String := pyOrStr vu.2 none
  let v := vu.1 <|> parse_number res
  if test ≠ "" then some (test, v, u) else none

/-- `_parse_table` from `extract.py`. -/
def parse_table (rows : List (List String)) : Except Unit (List Triple) :=
  if rows = [] then Except.ok []
  else
    match header_indices rows with
    | some hc => do
      let opts ← (rows.drop (hc.1 + 1)).mapM (parseRowHeader hc.2)
      pure (opts.filterMap id)
    | none => Except.ok (rows.filterMap parseRowNoHeader)

/-- Python `str.splitlines` (modelling the `\n`, `\r`, `\r\n` terminators). -/
def splitlinesAux : List Char → List Char → List String
  | [], acc => if acc = [] then [] else [String.mk acc.reverse]
  | '\r' :: '\n' :: rest, acc => String.mk acc.reverse :: splitlinesAux rest []
  | '\r' :: rest, acc => String.mk acc.reverse :: splitlinesAux rest []
  | '\n' :: rest, acc => String.mk acc.reverse :: splitlinesAux rest []
  | c :: rest, acc => splitlinesAux rest (c :: acc)

/-- Python `str.splitlines`. -/
def splitlines (s : String) : List String :=
  splitlinesAux s.data []

/-- Left-pad with zeros to `k` characters. -/
def padZeros (k : Nat) (s : String) : String :=
  String.mk (List.replicate (k - s.length) '0') ++ s

/-- Smallest positive decimal exponent making `a` an integer (searched up to
40 digits, far beyond any value a float round-trips). -/
def decDigitsExp (a : ℚ) : Option Nat :=
  ((List.range 40).map (fun i => i + 1)).find? (fun k => (a * (10 : ℚ) ^ k).den = 1)

/-- Model of Python float formatting `f"{v}"` for the finite decimals this
pipeline produces: shortest decimal expansion (no trailing zeros, since the
exponent is minimal). -/
def formatFloat (q : ℚ) : String :=
  let sgn := if q < 0 then "-" else ""
  let a := |q|
  match decDigitsExp a with
  | some k =>
    let n := (a * (10 : ℚ) ^ k).num.toNat
    sgn ++ toString (n / 10 ^ k) ++ "." ++ padZeros k (toString (n % 10 ^ k))
  | none => sgn ++ toString a.num ++ "/" ++ toString a.den

/-- `str(int(v)) if v.is_integer() else f"{v}"` from `_parse_text_lines`. -/
def valueRepr (v : ℚ) : String :=
  if v.den = 1 then toString v.num else formatFloat v

/-- Python `str.find`, as an `Option` instead of `-1`. -/
def strFindAux (needle : List Char) : List Char → Nat → Option Nat
  | [], i => if needle = [] then some i else none
  | h :: t, i =>
    if needle.isPrefixOf (h :: t) then some i else strFindAux needle t (i + 1)

/-- Python `hay.find(needle)`, as an `Option` instead of `-1`. -/
def strFind (hay needle : String) : Option Nat :=
  strFindAux needle.data hay.data 0

/-- The current-line label recovery of `_parse_text_lines`: locate the
value's text in the lowercased line; a strictly positive index with a
long-enough alphabetic prefix yields the label. -/
def currentLineLabel (s : String) (v : ℚ) : Option String :=
  match strFind (lowerStr s) (valueRepr v) with
  | some idx =>
    if idx > 0 then
      let left := stripStr (String.mk (s.data.take idx))
      if left.length > 2 ∧ left.data.any Char.isAlpha then some left else none
    else none
  | none => none

/-- The lookback label recovery of `_parse_text_lines`: scan the up-to-two
preceding lines (farthest first, matching `range(max(0, i-2), i)`), taking
the first nonempty alphabetic line that is short and denylist-free; a line
that fails the inner check is skipped, not fatal. -/
def lookbackLabel (lines : List String) (i : Nat) : Option String :=
  ((List.range i).drop (i - 2)).findSome?
    (fun j =>
      let pl := clean_text (lines.getD j "")
      if pl ≠ "" ∧ pl.data.any Char.isAlpha then
        if pl.length < 100 ∧ ¬ lineDenyWords.any (fun w => containsStr (lowerStr pl) w) then
          some pl
        else none
      else none)

/-- `_parse_text_lines` from `extract.py`, over the page's raw text. -/
def parse_text_lines (text : String) : List Triple :=
  let lines := splitlines text
  (List.range lines.length).filterMap
    (fun i =>
      let s := clean_text (lines.getD i "")
      if s = "" then none
      else
        match find_value_and_unit s with
        | (some v, u) =>
          (currentLineLabel s v <|> lookbackLabel lines i).map (fun nm => (nm, some v, u))
        | (none, _) => none)

/-- A decoded document page as supplied by the external reader: raw table
cell grids (cells may be missing) and raw text. -/
structure Page where
  tables : List (List (List (Option String)))
  text : String

/-- `_collect_tables` from `extract.py`: clean every cell (missing cells
become "") and keep only grids with at least one nonempty cell. -/
def collect_tables (pg : Page) : List (List (List String)) :=
  pg.tables.filterMap
    (fun tb =>
      let rows := tb.map (fun row => row.map (fun c => clean_text (c.getD "")))
      if rows.any (fun row => row.any (fun cell => cell ≠ "")) then some rows else none)

/-- The deduplication key of `extract_all`:
`(t[0].lower(), t[1], (t[2] or "").lower())`. -/
def tripleKey (t : Triple) : String × Option ℚ × String :=
  (lowerStr t.1, t.2.1, lowerStr (t.2.2.getD ""))

/-- The `seen`-set deduplication loop of `extract_all`. -/
def dedupTriples (ts : List Triple) : List Triple :=
  (ts.foldl
    (fun (st : List (String × Option ℚ × String) × List Triple) t =>
      let k := tripleKey t
      if k ∈ st.1 then st else (k :: st.1, st.2 ++ [t]))
    ([], [])).2

/-- Per-page candidate collection of `extract_all`: all table triples (in
table order), then the line triples. -/
def pageTriples (pg : Page) : Except Unit (List Triple) := do
  let tss ← (collect_tables pg).mapM parse_table
  pure (tss.flatten ++ parse_text_lines pg.text)

/-- The concatenation step of `extract_all`: all pages in order. -/
def gatherTriples (pages : List Page) : Except Unit (List Triple) := do
  let ps ← pages.mapM pageTriples
  pure ps.flatten

/-- `extract_all` from `extract.py` (the document decoding itself is the
external reader's job; a ragged table row propagates its `IndexError`). -/
def extract_all (pages : List Page) : Except Unit (List Triple) :=
  (gatherTriples pages).map dedupTriples

/-! ### `units.py` -/

/-- The conversion table `CONVERSIONS` from `units.py`:
`(param, from_unit, to_unit) -> (factor, offset)`. Decimal literals are
taken exactly; quotients written in the source as float divisions (e.g.
`1.0/88.4`) are modelled as exact rationals. -/
def CONVERSIONS : List ((String × String × String) × (ℚ × ℚ)) :=
  [(("Glucose, Fasting", "mmol/L", "mg/dl"), (18.0182, 0)),
   (("Glucose, Fasting", "mg/dl", "mg/dl"), (1, 0)),
   (("Total Cholesterol", "mmol/L", "mg/dl"), (38.67, 0)),
   (("Serum Triglycerides", "mmol/L", "mg/dl"), (88.57, 0)),
   (("Serum HDL Cholesterol", "mmol/L", "mg/dl"), (38.67, 0)),
   (("Serum LDL Cholesterol", "mmol/L", "mg/dl"), (38.67, 0)),
   (("Serum VLDL Cholesterol", "mmol/L", "mg/dl"), (38.67, 0)),
   (("Serum Creatinine", "µmol/L", "mg/dl"), (1 / 88.4, 0)),
   (("Serum Creatinine", "mg/dl", "mg/dl"), (1, 0)),
   (("Serum Calcium", "mmol/L", "mg/dl"), (40.08 / 4, 0)),
   (("Serum Phosphorus", "mmol/L", "mg/dl"), (30.97 / 3, 0)),
   (("Serum Uric Acid", "µmol/L", "mg/dl"), (1 / 59.48, 0)),
   (("VITAMIN D (25 - OH VITAMIN D)", "nmol/L", "ng/ml"), (1 / 2.496, 0)),
   (("VITAMIN D (25 - OH VITAMIN D)", "ng/ml", "ng/ml"), (1, 0)),
   (("VITAMIN B12", "pmol/L", "pg/mL"), (1 / 0.738, 0)),
   (("VITAMIN B12", "pg/mL", "pg/mL"), (1, 0)),
   (("Thyroid Stimulating Hormone (TSH)-Ultrasensitive", "mIU/L", "µIU/mL"), (1, 0)),
   (("Thyroid Stimulating Hormone (TSH)-Ultrasensitive", "µIU/mL", "µIU/mL"), (1, 0)),
   (("HS-CRP (HIGH SENSITIVITY C-REACTIVE PROTEIN)", "mg/L", "mg/L"), (1, 0)),
   (("Total Cholesterol", "mg/dl", "mg/dl"), (1, 0)),
   (("Serum HDL Cholesterol", "mg/dl", "mg/dl"), (1, 0)),
   (("Serum LDL Cholesterol", "mg/dl", "mg/dl"), (1, 0)),
   (("Serum VLDL Cholesterol", "mg/dl", "mg/dl"), (1, 0)),
   (("Serum Triglycerides", "mg/dl", "mg/dl"), (1, 0)),
   (("Serum Calcium", "mg/dl", "mg/dl"), (1, 0)),
   (("Serum Phosphorus", "mg/dl", "mg/dl"), (1, 0)),
   (("Serum Uric Acid", "mg/dl", "mg/dl"), (1, 0)),
   (("GFR, ESTIMATED", "mL/min/1.73m2", "mL/min/1.73m2"), (1, 0)),
   (("Hemoglobin", "g/dL", "g/dL"), (1, 0)),
   (("Hematocrit", "%", "%"), (1, 0)),
   (("Total Protein", "g/dl", "g/dl"), (1, 0)),
   (("Serum Albumin", "g/dl", "g/dl"), (1, 0)),
   (("Serum Sodium", "mmol/L", "mmol/L"), (1, 0)),
   (("Serum Potassium", "mmol/L", "mmol/L"), (1, 0)),
   (("Serum Chloride", "mmol/L", "mmol/L"), (1, 0)),
   (("Blood Urea Nitrogen", "mg/dl", "mg/dl"), (1, 0)),
   (("Aspartate Aminotransferase (AST)", "U/L", "U/L"), (1, 0)),
   (("Alanine Aminotransferase (ALT)", "U/L", "U/L"), (1, 0)),
   (("Alkaline Phosphatase", "U/L", "U/L"), (1, 0)),
   (("Total Bilirubin", "mg/dl", "mg/dl"), (1, 0)),
   (("Direct Bilirubin", "mg/dl", "mg/dl"), (1, 0))]

/-- Dictionary membership/lookup in `CONVERSIONS`. -/
def convLookup (k : String × String × String) : Option (ℚ × ℚ) :=
  (CONVERSIONS.find? (fun e => e.1 = k)).map (fun e => e.2)

/-- `convert_value` from `units.py`: convert to the target unit if a rule
exists; otherwise return the input unchanged (identity when the unit strings
already agree case-insensitively, else flagged by the source unit). -/
def convert_value (param : String) (value : ℚ) (fromUnit : Option String) (toUnit : String) : ℚ × String :=
  match fromUnit with
  | none => (value, toUnit)
  | some fu =>
    match convLookup (param, fu, toUnit) with
    | some fo => (value * fo.1 + fo.2, toUnit)
    | none =>
      if lowerStr fu = lowerStr toUnit then (value, toUnit) else (value, fu)

/-! ### `normalize.py` -/

/-- A canonical registry parameter (`CanonicalParam` in `normalize.py`). -/
structure CanonicalParam where
  name : String
  id : Option String
  unit : String
  rounding : Int
deriving DecidableEq, Repr

/-- The canonical registry (`CanonicalRegistry` in `normalize.py`). -/
structure CanonicalRegistry where
  parameters : List CanonicalParam
deriving DecidableEq, Repr

/-- One entry of the final mapping: `{"value": ..., "unit": ...}`. -/
structure NormValue where
  value : Option ℚ
  unit : Option String
deriving DecidableEq, Repr

/-- Association-list lookup with Python `dict` first-match semantics. -/
def alookup {V : Type} : List (String × V) → String → Option V
  | [], _ => none
  | kv :: rest, k => if kv.1 = k then some kv.2 else alookup rest k

/-- Python `dict` assignment: overwrite in place if the key exists, else
append at the end (insertion order preserved). -/
def dictInsert {V : Type} : List (String × V) → String → V → List (String × V)
  | [], k, v => [(k, v)]
  | kv :: rest, k, v => if kv.1 = k then (k, v) :: rest else kv :: dictInsert rest k v

/-- `grouped.setdefault`-then-append: push `v` onto the list at key `k`,
creating the key at the end if absent. -/
def dictPush {V : Type} : List (String × List V) → String → V → List (String × List V)
  | [], k, v => [(k, [v])]
  | kv :: rest, k, v =>
    if kv.1 = k then (k, kv.2 ++ [v]) :: rest else kv :: dictPush rest k v

/-- The four `rapidfuzz` similarity functions used by `_best_match`
(`fuzz.WRatio`, `fuzz.partial_ratio`, `fuzz.token_sort_ratio`,
`fuzz.token_set_ratio`). They belong to a third-party library, so they are
kept abstract; every theorem below holds for an arbitrary oracle. -/
structure SimOracle where
  scoreWR : String → String → ℚ
  scorePR : String → String → ℚ
  scoreTS : String → String → ℚ
  scoreTSet : String → String → ℚ

/-- `PARAM_SYNONYMS` lives in `bloodparser/synonyms.py`, a configuration
module not among the provided sources; the synonym table is therefore a
parameter of the pipeline, and every theorem below holds for any table. -/
abbrev SynTable := List (String × List String)

/-- `_build_alias_map` from `normalize.py`: canonical name plus synonyms,
each cleaned and lowercased. -/
def build_alias_map (syns : SynTable) (reg : CanonicalRegistry) : List (String × List String) :=
  reg.parameters.foldl
    (fun aliases p =>
      let names := [p.name] ++ ((alookup syns p.name).getD [])
      dictInsert aliases p.name (names.map (fun n => lowerStr (clean_text n))))
    []

/-- Python `s.split()`: whitespace-separated words, no empties. -/
def pyWords (s : String) : List String :=
  (wsTokens s.data).map String.mk

/-- `len(set(a) & set(b))` for word lists. -/
def interCount (a b : List String) : Nat :=
  (a.dedup.filter (fun x => x ∈ b)).length

/-- `len(set(a) | set(b))` for word lists. -/
def unionCount (a b : List String) : Nat :=
  (a.dedup ++ b.dedup.filter (fun x => x ∉ a)).length

/-- The per-alias score list of `_best_match`: the four fuzzy strategies,
a 95 substring bonus, and the word-overlap Jaccard ratio ×100. -/
def aliasScores (o : SimOracle) (tl a : String) : List ℚ :=
  [o.scoreWR tl a, o.scorePR tl a, o.scoreTS tl a, o.scoreTSet tl a] ++
  (if containsStr tl (lowerStr a) || containsStr (lowerStr a) tl then [95] else []) ++
  (let tw := pyWords tl
   let aw := pyWords (lowerStr a)
   if interCount tw aw ≠ 0 then
     [(interCount tw aw : ℚ) / (unionCount tw aw : ℚ) * 100]
   else [])

/-- Python `max` over a nonempty list (`max(scores)`). -/
def pyMax : List ℚ → ℚ
  | [] => 0
  | x :: xs => xs.foldl max x

/-- The scan of `_best_match` over all (canonical name, alias) pairs,
keeping the strictly best score (first seen wins ties), starting from
`(None, -1)`. The result does not depend on the strict level. -/
def bestCandidate (o : SimOracle) (label : String) (aliases : List (String × List String)) : Option String × ℚ :=
  let tl := lowerStr (clean_text label)
  aliases.foldl
    (fun best ca =>
      ca.2.foldl
        (fun best a =>
          let score := pyMax (aliasScores o tl a)
          if score > best.2 then (some ca.1, score) else best)
        best)
    (none, -1)

/-- `thresholds.get(strict_level, 70)` from `_best_match`. -/
def thresholdFor (lvl : Int) : ℚ :=
  if lvl = 0 then 60 else if lvl = 1 then 70 else if lvl = 2 then 85 else 70

/-- `_best_match` from `normalize.py`. -/
def best_match (o : SimOracle) (label : String) (aliases : List (String × List String)) (lvl : Int) : Option String :=
  let b := bestCandidate o label aliases
  if b.2 ≥ thresholdFor lvl then b.1 else none

/-- `score_match`, the tie-break scorer defined inside `normalize_triples`
(`normalize.py` lines 115-270), transcribed branch by branch. -/
def score_match (canon : String) (label : String) (value : ℚ) (unit : Option String) : Int :=
  let ll := lowerStr label
  let hasW : String → Prop := fun w => containsStr ll w = true
  let sUnit : Int := if unit ≠ none then 50 else 0
  let sLen : Int :=
    if hasW "glycosylated" ∧ hasW "hemoglobin" then 50
    else if label.length < 30 then 20
    else if label.length < 50 then 10
    else 0
  let sExpl : Int := if ¬ explanatoryWords.any (fun w => containsStr ll w) then 30 else 0
  let sInd : Int := if testIndicators.any (fun w => containsStr ll w) then 40 else 0
  let sLex : Int :=
    if canon = "Total Cholesterol" ∧ hasW "cholesterol" ∧ hasW "total" then 100
    else if canon = "Serum HDL Cholesterol" ∧ hasW "hdl" ∧ hasW "cholesterol" then 100
    else if canon = "Serum LDL Cholesterol" ∧ hasW "ldl" ∧ hasW "cholesterol" then 100
    else if canon = "Serum VLDL Cholesterol" ∧ hasW "vldl" ∧ hasW "cholesterol" then 100
    else 0
  let sCanon : Int := if containsStr ll (lowerStr canon) then 60 else 0
  let sPen : Int :=
    if canon = "Total Cholesterol" then
      if hasW "leucocyte" ∨ hasW "count" ∨ hasW "immunoglobulin" ∨ hasW "psa" ∨
          hasW "iron" ∨ hasW "thyroid" ∨ hasW "testosterone" then -200 else 0
    else if canon = "Serum HDL Cholesterol" then
      if hasW "leucocyte" ∨ hasW "count" ∨ hasW "immunoglobulin" ∨ hasW "psa" ∨
          hasW "iron" ∨ hasW "thyroid" ∨ hasW "testosterone" ∨ hasW "lipoprotein" then -200 else 0
    else 0
  let sSpec : Int :=
    if canon = "Hba1c (Glycosylated Hemoglobin)" then
      if hasW "hba1c" then 100
      else if hasW "hemoglobin" ∧ ¬ hasW "hba" then -50
      else 0
    else if canon = "Serum Phosphorus" then
      if hasW "phosphorus" ∧ hasW "serum" then 100
      else if hasW "concentrations" ∨ hasW "about" then -100
      else 0
    else if canon = "VITAMIN D (25 - OH VITAMIN D)" then
      if hasW "25-oh" ∨ hasW "25 oh" then 100
      else if hasW "vitamin d3" ∨ hasW "depura" then -100
      else 0
    else if canon = "HS-CRP (HIGH SENSITIVITY C-REACTIVE PROTEIN)" then
      if hasW "hs-crp" ∨ hasW "high sensitivity" then 100
      else if hasW "crp" ∧ (hasW "reactive" ∨ hasW "protein") then 80
      else if hasW "reactive" ∧ hasW "protein" then 60
      else if hasW "crp" then 50
      else if ll ∈ ["high", "very high", "low", "normal", "optimal", "above optimal"] then -500
      else 0
    else if canon = "GFR, ESTIMATED" then
      if hasW "gfr" ∧ hasW "estimated" then 200
      else if hasW "gfr" ∧ (containsStr label "<" ∨ containsStr label ">" ∨ containsStr label "=") then 150
      else if hasW "glomerular" ∧ hasW "filtration" then 100
      else if hasW "gfr" then 80
      else if hasW "prevalence" ∨ hasW "estimated" then -100
      else if hasW "glucose" then -200
      else if hasW "ratio" ∨ hasW "beta" ∨ hasW "cell" then -300
      else if hasW "unit" ∨ hasW "ml/min" then -200
      else 0
    else if canon = "Alanine Aminotransferase (ALT)" then
      if hasW "alt" ∧ (hasW "s.g.p.t" ∨ hasW "sgpt") then 100
      else if hasW "alt" then 80
      else if hasW "s.g.p.t" ∨ hasW "sgpt" then 70
      else if hasW "bilirubin" ∨ hasW "total" then -200
      else if ll ∈ ["optimal", "above optimal", "high", "low"] then -200
      else 0
    else if canon = "Aspartate Aminotransferase (AST)" then
      if hasW "ast" ∧ (hasW "sgot" ∨ hasW "s.g.o.t") then 100
      else if hasW "ast" then 80
      else if hasW "sgot" ∨ hasW "s.g.o.t" then 70
      else if hasW "bilirubin" ∨ hasW "total" then -200
      else if ll ∈ ["optimal", "above optimal", "high", "low"] then -200
      else 0
    else if canon = "Thyroid Stimulating Hormone (TSH)-Ultrasensitive" then
      if hasW "tsh" ∧ ¬ hasW "thyroid" then 50
      else if hasW "circadian" ∨ hasW "variation" then -100
      else 0
    else if canon = "Glucose, Fasting" then
      if hasW "glucose" ∧ hasW "fasting" then 100
      else if hasW "eag" ∨ hasW "estimated average glucose" then 50
      else if hasW "gfr" ∨ hasW "glomerular" then -200
      else 0
    else 0
  let sVal : Int :=
    if canon = "Hba1c (Glycosylated Hemoglobin)" then
      if 4 ≤ value ∧ value ≤ 15 then 30 else 0
    else if canon = "HS-CRP (HIGH SENSITIVITY C-REACTIVE PROTEIN)" then
      if 0 ≤ value ∧ value ≤ 10 then 30
      else if 200 ≤ value ∧ value ≤ 500 then 20
      else 0
    else if canon = "Glucose, Fasting" then
      if 50 ≤ value ∧ value ≤ 500 then 30 else 0
    else if canon = "GFR, ESTIMATED" then
      (if 10 ≤ value ∧ value ≤ 200 then 30 else 0) +
      (match unit with
       | some u =>
         if u ≠ "" ∧ containsStr (lowerStr u) "ml/min" then 50 else 0
       | none =>
         if containsStr label "<" ∨ containsStr label ">" ∨ containsStr label "=" then 40 else 0)
    else 0
  sUnit + sLen + sExpl + sInd + sLex + sCanon + sPen + sSpec + sVal

/-- Python `max(matches, key=f)`: first element with the strictly greatest
key wins (`None` only on an empty list, where Python raises). -/
def pyMaxBy {α : Type} (f : α → Int) : List α → Option α
  | [] => none
  | x :: xs => some (xs.foldl (fun best y => if f y > f best then y else best) x)

/-- A grouped candidate: label, (non-`None`) value, optional unit. -/
abbrev GroupedEntry := String × ℚ × Option String

/-- Python `round(x, n)` (round-half-to-even at decimal precision `n`,
idealized to exact rationals). -/
def roundHalfEven (q : ℚ) : ℤ :=
  let fl := ⌊q⌋
  let fr := q - fl
  if fr < 1 / 2 then fl
  else if 1 / 2 < fr then fl + 1
  else if fl % 2 = 0 then fl else fl + 1

/-- Python `round(x, n)` with an integer digit count. -/
def pyRound (q : ℚ) (n : Int) : ℚ :=
  let m : ℚ := (10 : ℚ) ^ n
  (roundHalfEven (q * m) : ℚ) / m

/-- `normalize_triples` from `normalize.py`: group the triples by their
best-matching canonical name (dropping unmatched and valueless candidates),
pick the best-scoring candidate per group, convert its unit and round. The
`alookup byName` and `pyMaxBy` fallbacks are unreachable (grouped keys are
registry names and grouped lists are nonempty) and skip the entry. -/
def normalize_triples (o : SimOracle) (syns : SynTable) (triples : List Triple) (registry : CanonicalRegistry) (lvl : Int) : List (String × NormValue) :=
  let aliases := build_alias_map syns registry
  let byName := registry.parameters.foldl (fun m p => dictInsert m p.name p) []
  let grouped : List (String × List GroupedEntry) :=
    triples.foldl
      (fun g t =>
        match best_match o t.1 aliases lvl, t.2.1 with
        | some canon, some v =>
          if canon = "" then g else dictPush g canon (t.1, v, t.2.2)
        | _, _ => g)
      []
  grouped.foldl
    (fun out cm =>
      match alookup byName cm.1 with
      | none => out
      | some p =>
        match pyMaxBy (fun e => score_match cm.1 e.1 e.2.1 e.2.2) cm.2 with
        | none => out
        | some best =>
          let cv := convert_value cm.1 best.2.1 best.2.2 p.unit
          dictInsert out cm.1 ⟨some (pyRound cv.1 p.rounding), some cv.2⟩)
    []

/-- `normalize_triples_with_nulls` from `normalize.py`: complete the
normalized mapping so that every registry parameter is present, unmatched
ones as `{"value": None, "unit": None}`. -/
def normalize_triples_with_nulls (o : SimOracle) (syns : SynTable) (triples : List Triple) (registry : CanonicalRegistry) (lvl : Int) : List (String × NormValue) :=
  let norm := normalize_triples o syns triples registry lvl
  registry.parameters.foldl
    (fun cn p =>
      dictInsert cn p.name
        (match alookup norm p.name with
         | some v => v
         | none => ⟨none, none⟩))
    []

/-! ### Auxiliary definitions for the specifications -/

/-- Well-formedness of a cell grid for `_parse_table`: when a header row is
detected, every data row must be long enough to index the three detected
header columns (`_parse_table` indexes them unconditionally). Grids without
a detected header are always well-formed. -/
def wfGridB (rows : List (List String)) : Bool :=
  match header_indices rows with
  | none => true
  | some hc =>
    (rows.drop (hc.1 + 1)).all
      (fun r =>
        decide (hc.2.test < r.length) && decide (hc.2.result < r.length) &&
        decide (hc.2.unit < r.length))

/-- First-occurrence deduplication by key, declaratively: keep the first
element of each key in its original position and drop every later element
whose key already appeared earlier. -/
def keepFirsts {α β : Type} [DecidableEq β] (key : α → β) : List α → List α
  | [] => []
  | x :: xs => x :: keepFirsts key (xs.filter (fun y => key y ≠ key x))
  termination_by l => l.length
  decreasing_by
    have := List.length_filter_le (fun y => decide (key y ≠ key x)) xs
    simp only [List.length_cons]
    omega

/-- The generalized state of the `dedupTriples` loop: elements whose key is
in `seen` are dropped, a fresh key is recorded when first kept. -/
def keepFirstsSeen {α β : Type} [DecidableEq β] (key : α → β) (seen : List β) : List α → List α
  | [] => []
  | x :: xs =>
    if key x ∈ seen then keepFirstsSeen key seen xs
    else x :: keepFirstsSeen key (key x :: seen) xs

/-- Equality of `Except` results is decidable (needed to evaluate the
extraction pipeline on concrete inputs). -/
instance {e a : Type} [DecidableEq e] [DecidableEq a] : DecidableEq (Except e a) :=
  fun x y =>
    match x, y with
    | .error u, .error v =>
      decidable_of_iff (u = v) ⟨by rintro rfl; rfl, fun h => by injection h⟩
    | .error _, .ok _ => isFalse (fun h => by injection h)
    | .ok _, .error _ => isFalse (fun h => by injection h)
    | .ok u, .ok v =>
      decidable_of_iff (u = v) ⟨by rintro rfl; rfl, fun h => by injection h⟩

/-- The shape of a group-1 match of `UNIT_INLINE_RE` / `NUM_RE`: optional
minus sign, nonempty integer digits, optional separator-plus-digits
fraction. -/
def numShape (n : List Char) : Prop :=
  ∃ sgn ds fr, n = sgn ++ ds ++ fr ∧ (sgn = [] ∨ sgn = ['-']) ∧ ds ≠ [] ∧
    (∀ c ∈ ds, Char.isDigit c = true) ∧
    (fr = [] ∨ ∃ c fs, (c = '.' ∨ c = ',') ∧ fs ≠ [] ∧
      (∀ d ∈ fs, Char.isDigit d = true) ∧ fr = c :: fs)

/-- A trivial similarity oracle (all four fuzzy scores constantly 0), used
to instantiate universally quantified theorems on concrete inputs. -/
def oracleZero : SimOracle :=
  ⟨fun _ _ => 0, fun _ _ => 0, fun _ _ => 0, fun _ _ => 0⟩

/-- A one-page document whose single table carries two case-variant data
rows (same dedup key, distinct triples). -/
def pagesCE : List Page :=
  [⟨[[[some "Test", some "Result", some "Unit"],
      [some "Abc", some "5", some "x"],
      [some "ABC", some "5", some "X"]]], ""⟩]

/-- A one-parameter registry used to instantiate universal theorems. -/
def regOne : CanonicalRegistry := ⟨[⟨"A", none, "mg/dl", 1⟩]⟩

/-! ## Claim theorems -/

/-- C7: for every canonical parameter name, numeric value `v`, and target
unit, `convert_value name v None target` returns exactly `(v, target)` — a
missing source unit leaves the value unchanged and labels it with the
target unit. -/
theorem C7_missing_source_unit_passthrough (name : String) (v : ℚ) (target : String) :
    convert_value name v none target = (v, target) := rfl

/-- C8: for every canonical name, value `v`, non-empty source unit `u` and
target unit `t` such that `(name, u, t)` is not a key of the conversion
table: case-insensitively equal units give `(v, t)`, otherwise the result
is `(v, u)`; in both cases the value is numerically unchanged and no error
occurs. -/
theorem C8_unknown_conversion_key (name u t : String) (v : ℚ)
    (_hne : u ≠ "") (hkey : convLookup (name, u, t) = none) :
    (lowerStr u = lowerStr t → convert_value name v (some u) t = (v, t)) ∧
    (lowerStr u ≠ lowerStr t → convert_value name v (some u) t = (v, u)) ∧
    (convert_value name v (some u) t).1 = v := by
  simp only [convert_value, hkey]
  refine ⟨fun hl => by simp [hl], fun hl => by simp [hl], ?_⟩
  by_cases hl : lowerStr u = lowerStr t <;> simp [hl]

/-- Closed witness for C8 at a key absent from the table. -/
theorem C8_unknown_conversion_key_witness :
    convert_value "X" 5 (some "foo") "bar" = (5, "foo") :=
  (C8_unknown_conversion_key "X" "foo" "bar" 5 (by decide) (by decide)).2.1 (by decide)

/-- C5: the Alias Matcher acceptance thresholds are 60/70/85 for strict
levels 0/1/2, and any other strict level uses the level-1 threshold 70,
with `_best_match` behaving exactly as at level 1 (no failure). -/
theorem C5_strict_level_thresholds :
    thresholdFor 0 = 60 ∧ thresholdFor 1 = 70 ∧ thresholdFor 2 = 85 ∧
    ∀ lvl : Int, lvl ≠ 0 → lvl ≠ 1 → lvl ≠ 2 →
      thresholdFor lvl = 70 ∧
      ∀ (o : SimOracle) (label : String) (aliases : List (String × List String)),
        best_match o label aliases lvl = best_match o label aliases 1 := by
  refine ⟨by decide, by decide, by decide, ?_⟩
  intro lvl h0 h1 h2
  have ht : thresholdFor lvl = 70 := by simp [thresholdFor, h0, h1, h2]
  have ht1 : thresholdFor 1 = 70 := by decide
  exact ⟨ht, fun o label aliases => by simp only [best_match, ht, ht1]⟩

/-- Closed witness for C5 at the unknown strict level 5. -/
theorem C5_strict_level_thresholds_witness :
    thresholdFor 5 = 70 ∧
    best_match oracleZero "x" [] 5 = best_match oracleZero "x" [] 1 := by
  have h := C5_strict_level_thresholds.2.2.2 5 (by decide) (by decide) (by decide)
  exact ⟨h.1, h.2 oracleZero "x" []⟩

/-- Acceptance at a higher threshold implies acceptance (of the same
canonical name) at a lower one: the best candidate and its score do not
depend on the strict level. -/
theorem best_match_le_mono (o : SimOracle) (label : String)
    (aliases : List (String × List String)) {l1 l2 : Int}
    (hth : thresholdFor l1 ≤ thresholdFor l2) {c : String}
    (h : best_match o label aliases l2 = some c) :
    best_match o label aliases l1 = some c := by
  unfold best_match at h ⊢
  by_cases hge : (bestCandidate o label aliases).2 ≥ thresholdFor l2
  · rw [if_pos hge] at h
    rw [if_pos (le_trans hth hge)]
    exact h
  · rw [if_neg hge] at h
    exact absurd h (by simp)

/-- C6: Alias-Matcher acceptance is antitone in the strict level: a label
accepted at level 2 is accepted (same canonical name) at level 1, level 1
implies level 0, and for a fixed candidate list the number of accepted
labels never increases from level 0 to 1 to 2. -/
theorem C6_acceptance_antitone (o : SimOracle) (aliases : List (String × List String)) :
    (∀ label c, best_match o label aliases 2 = some c → best_match o label aliases 1 = some c) ∧
    (∀ label c, best_match o label aliases 1 = some c → best_match o label aliases 0 = some c) ∧
    ∀ labels : List String,
      ((labels.filter (fun l => (best_match o l aliases 2).isSome)).length ≤
          (labels.filter (fun l => (best_match o l aliases 1).isSome)).length) ∧
      ((labels.filter (fun l => (best_match o l aliases 1).isSome)).length ≤
          (labels.filter (fun l => (best_match o l aliases 0).isSome)).length) := by
  have h21 : thresholdFor 1 ≤ thresholdFor 2 := by decide
  have h10 : thresholdFor 0 ≤ thresholdFor 1 := by decide
  have step : ∀ {la lb : Int}, thresholdFor la ≤ thresholdFor lb →
      ∀ l : String, (best_match o l aliases lb).isSome = true →
        (best_match o l aliases la).isSome = true := by
    intro la lb hth l hl
    cases hopt : best_match o l aliases lb with
    | none => rw [hopt] at hl; simp at hl
    | some c => rw [best_match_le_mono o l aliases hth hopt]; rfl
  refine ⟨fun label c => best_match_le_mono o label aliases h21,
          fun label c => best_match_le_mono o label aliases h10, ?_⟩
  intro labels
  exact ⟨(List.monotone_filter_right labels (step h21)).length_le,
         (List.monotone_filter_right labels (step h10)).length_le⟩

/-- Closed witness for C6: a level-2 acceptance propagated to level 1. -/
theorem C6_acceptance_antitone_witness :
    best_match oracleZero "abc" [("Canon", ["abc"])] 1 = some "Canon" :=
  (C6_acceptance_antitone oracleZero [("Canon", ["abc"])]).1 "abc" "Canon"
    (by with_unfolding_all rfl)

set_option maxRecDepth 40000 in
/-- C4: the Table Extractor on the grid
`[["Test","Result","Unit"],["Serum Creatinine","0.9","mg/dl"]]` yields
exactly the triple `("Serum Creatinine", 0.9, "mg/dl")`; row 0 is the
header with test/result/unit columns 0/1/2, and the value 0.9 is scanned
from the result cell with no inline unit, so the unit column is used. -/
theorem C4_creatinine_grid :
    parse_table [["Test", "Result", "Unit"], ["Serum Creatinine", "0.9", "mg/dl"]] =
      Except.ok [("Serum Creatinine", some (9 / 10 : ℚ), some "mg/dl")] ∧
    header_indices [["Test", "Result", "Unit"], ["Serum Creatinine", "0.9", "mg/dl"]] =
      some (0, ⟨0, 1, 2⟩) ∧
    find_value_and_unit "0.9" = (some (9 / 10 : ℚ), none) := by
  refine ⟨?_, ?_, ?_⟩ <;> with_unfolding_all rfl

set_option maxRecDepth 100000 in
set_option maxHeartbeats 1000000 in
/-- C9: for the two candidates grouped under "Total Cholesterol", the
tie-break scorer gives `("Total Cholesterol", 180, "mg/dl")` a strictly
higher score than `("Cholesterol interpretation range", 200, None)` and
selects it in either input order. -/
theorem C9_total_cholesterol_tiebreak :
    score_match "Total Cholesterol" "Total Cholesterol" 180 (some "mg/dl") >
      score_match "Total Cholesterol" "Cholesterol interpretation range" 200 none ∧
    pyMaxBy (fun e => score_match "Total Cholesterol" e.1 e.2.1 e.2.2)
        ([("Total Cholesterol", 180, some "mg/dl"),
          ("Cholesterol interpretation range", 200, none)] : List GroupedEntry) =
      some ("Total Cholesterol", 180, some "mg/dl") ∧
    pyMaxBy (fun e => score_match "Total Cholesterol" e.1 e.2.1 e.2.2)
        ([("Cholesterol interpretation range", 200, none),
          ("Total Cholesterol", 180, some "mg/dl")] : List GroupedEntry) =
      some ("Total Cholesterol", 180, some "mg/dl") := by decide

/-- An `Except`-valued `mapM` succeeds when every element succeeds. -/
theorem mapM_ok {α β : Type} (f : α → Except Unit β) :
    ∀ l : List α, (∀ x ∈ l, ∃ y, f x = Except.ok y) → ∃ ys, l.mapM f = Except.ok ys
  | [], _ => ⟨[], by rw [List.mapM_nil]; rfl⟩
  | x :: xs, h => by
    obtain ⟨y, hy⟩ := h x (by simp)
    obtain ⟨ys, hys⟩ := mapM_ok f xs (fun a ha => h a (by simp [ha]))
    exact ⟨y :: ys, by rw [List.mapM_cons, hy, hys]; rfl⟩

/-- A data row long enough for all three header columns is processed
without error. -/
theorem parseRowHeader_ok (cols : HeaderCols) (r : List String)
    (h1 : cols.test < r.length) (h2 : cols.result < r.length)
    (h3 : cols.unit < r.length) :
    ∃ t, parseRowHeader cols r = Except.ok t := by
  simp only [parseRowHeader, pyIndex, List.get?_eq_get h1, List.get?_eq_get h2,
    List.get?_eq_get h3]
  exact ⟨_, rfl⟩

/-- C2 as stated is false: on the grid `[["Test","Result","Unit"],["only"]]`
the header is detected with result column 1, and the single-cell data row
raises `IndexError` (modelled as `Except.error`). -/
theorem C2_counterexample :
    parse_table [["Test", "Result", "Unit"], ["only"]] = Except.error () := by
  with_unfolding_all rfl

/-- C2 (amended): `_parse_table` is total on every grid whose data rows are
long enough to index the detected header's test/result/unit columns (and on
every grid with no detected header); malformed or unparsable cells yield
empty/null fields in the emitted triples instead of errors. -/
theorem C2_parse_table_total_on_wf (rows : List (List String))
    (h : wfGridB rows = true) :
    ∃ ts, parse_table rows = Except.ok ts := by
  by_cases hnil : rows = []
  · exact ⟨[], by simp [parse_table, hnil]⟩
  cases hh : header_indices rows with
  | none =>
    exact ⟨rows.filterMap parseRowNoHeader, by simp only [parse_table, hnil, hh, if_false]⟩
  | some hc =>
    have h2 : (rows.drop (hc.1 + 1)).all
        (fun r =>
          decide (hc.2.test < r.length) && decide (hc.2.result < r.length) &&
          decide (hc.2.unit < r.length)) = true := by
      unfold wfGridB at h
      rw [hh] at h
      exact h
    have hall := List.all_eq_true.mp h2
    have hrows : ∀ r ∈ rows.drop (hc.1 + 1), ∃ t, parseRowHeader hc.2 r = Except.ok t := by
      intro r hr
      have hb := hall r hr
      simp only [Bool.and_eq_true, decide_eq_true_eq] at hb
      exact parseRowHeader_ok hc.2 r hb.1.1 hb.1.2 hb.2
    obtain ⟨ys, hys⟩ := mapM_ok (parseRowHeader hc.2) (rows.drop (hc.1 + 1)) hrows
    refine ⟨ys.filterMap id, ?_⟩
    simp only [parse_table, hnil, hh, if_false, hys]
    rfl

/-- Closed witness for C2 (amended) on a well-formed grid. -/
theorem C2_parse_table_total_on_wf_witness :
    wfGridB [["Test", "Result", "Unit"], ["A", "1", "u"]] = true ∧
    ∃ ts, parse_table [["Test", "Result", "Unit"], ["A", "1", "u"]] = Except.ok ts :=
  ⟨by with_unfolding_all rfl,
   C2_parse_table_total_on_wf [["Test", "Result", "Unit"], ["A", "1", "u"]]
     (by with_unfolding_all rfl)⟩

/-- `takeWhile` passes over a block that wholly satisfies the predicate. -/
theorem takeWhile_append_of_all {p : Char → Bool} {d r : List Char}
    (hd : ∀ c ∈ d, p c = true) :
    (d ++ r).takeWhile p = d ++ r.takeWhile p := by
  induction d with
  | nil => rfl
  | cons c cs ih =>
    simp only [List.cons_append, List.takeWhile_cons, hd c (by simp), if_true]
    rw [ih (fun c hc => hd c (by simp [hc]))]

/-- `dropWhile` passes over a block that wholly satisfies the predicate. -/
theorem dropWhile_append_of_all {p : Char → Bool} {d r : List Char}
    (hd : ∀ c ∈ d, p c = true) :
    (d ++ r).dropWhile p = r.dropWhile p := by
  induction d with
  | nil => rfl
  | cons c cs ih =>
    simp only [List.cons_append, List.dropWhile_cons, hd c (by simp), if_true]
    exact ih (fun c hc => hd c (by simp [hc]))

/-- A successful token of `tryUnits` comes from some token of the list. -/
theorem tryUnits_mem {ts : List String} {cs pre : List Char}
    (h : tryUnits ts cs = some pre) :
    ∃ t ∈ ts, unitTokenAt t cs = some pre := by
  induction ts with
  | nil => simp [tryUnits] at h
  | cons t ts ih =>
    simp only [tryUnits] at h
    cases hu : unitTokenAt t cs with
    | some p =>
      rw [hu] at h
      exact ⟨t, by simp, by rw [hu]; exact h⟩
    | none =>
      rw [hu] at h
      obtain ⟨t2, ht2, hu2⟩ := ih h
      exact ⟨t2, by simp [ht2], hu2⟩

/-- A successful `unitTokenAt` returns a case-variant of its token. -/
theorem unitTokenAt_lower {t : String} {cs pre : List Char}
    (h : unitTokenAt t cs = some pre) :
    pre.map Char.toLower = t.data.map Char.toLower := by
  simp only [unitTokenAt] at h
  split at h
  · rename_i hcond
    injection h with h2
    rw [← h2]
    exact hcond.2.1
  · exact absurd h (by simp)

/-- Every fraction candidate is empty or a separator followed by nonempty
digits. -/
theorem fracCandidates_shape {cs : List Char} {fr : List Char × List Char}
    (h : fr ∈ fracCandidates cs) :
    fr.1 = [] ∨ ∃ c fs, (c = '.' ∨ c = ',') ∧ fs ≠ [] ∧
      (∀ d ∈ fs, Char.isDigit d = true) ∧ fr.1 = c :: fs := by
  simp only [fracCandidates] at h
  split at h
  · rename_i c rest
    by_cases hsep : c = '.' ∨ c = ','
    · rw [if_pos hsep] at h
      by_cases hds : rest.takeWhile Char.isDigit = []
      · rw [if_pos hds] at h
        simp only [List.mem_singleton] at h
        exact Or.inl (by rw [h])
      · rw [if_neg hds] at h
        rcases List.mem_append.mp h with hmem | hmem
        · obtain ⟨k, hk, heq⟩ := List.mem_map.mp hmem
          have hklt := List.mem_range.mp hk
          refine Or.inr ⟨c, (rest.takeWhile Char.isDigit).take
            ((rest.takeWhile Char.isDigit).length - k), hsep, ?_, ?_, ?_⟩
          · intro h0
            rcases List.take_eq_nil_iff.mp h0 with h1 | h1
            · omega
            · exact hds h1
          · intro d hd
            exact List.mem_takeWhile_imp (List.take_subset _ _ hd)
          · rw [← heq]
        · simp only [List.mem_singleton] at hmem
          exact Or.inl (by rw [hmem])
    · rw [if_neg hsep] at h
      simp only [List.mem_singleton] at h
      exact Or.inl (by rw [h])
  · simp only [List.mem_singleton] at h
    exact Or.inl (by rw [h])

/-- Every unsigned number candidate is nonempty digits followed by an
optional separator-plus-digits fraction. -/
theorem unsignedNumCandidates_shape {cs : List Char} {nr : List Char × List Char}
    (h : nr ∈ unsignedNumCandidates cs) :
    ∃ ds2 fr1, nr.1 = ds2 ++ fr1 ∧ ds2 ≠ [] ∧
      (∀ c ∈ ds2, Char.isDigit c = true) ∧
      (fr1 = [] ∨ ∃ c fs, (c = '.' ∨ c = ',') ∧ fs ≠ [] ∧
        (∀ d ∈ fs, Char.isDigit d = true) ∧ fr1 = c :: fs) := by
  simp only [unsignedNumCandidates] at h
  by_cases hds : cs.takeWhile Char.isDigit = []
  · rw [if_pos hds] at h
    simp at h
  · rw [if_neg hds] at h
    obtain ⟨k, hk, hmem⟩ := List.mem_flatMap.mp h
    obtain ⟨fr, hfr, heq⟩ := List.mem_map.mp hmem
    have hklt := List.mem_range.mp hk
    refine ⟨(cs.takeWhile Char.isDigit).take ((cs.takeWhile Char.isDigit).length - k),
      fr.1, ?_, ?_, ?_, fracCandidates_shape hfr⟩
    · rw [← heq]
    · intro h0
      rcases List.take_eq_nil_iff.mp h0 with h1 | h1
      · omega
      · exact hds h1
    · intro c hc
      exact List.mem_takeWhile_imp (List.take_subset _ _ hc)

/-- Every number candidate's group 1 has the `-?\d+(?:[\.,]\d+)?` shape. -/
theorem numberCandidates_shape {cs : List Char} {nr : List Char × List Char}
    (h : nr ∈ numberCandidates cs) : numShape nr.1 := by
  unfold numberCandidates at h
  split at h
  · rename_i r
    obtain ⟨nr2, hnr2, heq⟩ := List.mem_map.mp h
    obtain ⟨ds2, fr1, he, hne, hdig, hfr⟩ := unsignedNumCandidates_shape hnr2
    refine ⟨['-'], ds2, fr1, ?_, Or.inr rfl, hne, hdig, hfr⟩
    rw [← heq]
    simp [he]
  · obtain ⟨ds2, fr1, he, hne, hdig, hfr⟩ := unsignedNumCandidates_shape h
    exact ⟨[], ds2, fr1, by simpa using he, Or.inl rfl, hne, hdig, hfr⟩

/-- `parseFloatQ` on a list not starting with a minus sign is the core. -/
theorem parseFloatQ_not_minus {l : List Char} (h : l.headD ' ' ≠ '-') :
    parseFloatQ (String.mk l) = parseFloatCore l := by
  cases l with
  | nil => rfl
  | cons c cs =>
    simp only [parseFloatQ]
    split
    · rename_i cs2 heq
      injection heq with hc hcs
      exact absurd hc h
    · rfl

/-- `parseFloatQ` on a minus-signed list negates the core's result. -/
theorem parseFloatQ_minus (l : List Char) :
    parseFloatQ (String.mk ('-' :: l)) = (parseFloatCore l).map (fun q => -q) := rfl

/-- The core float parser succeeds on nonempty digits optionally followed by
a period-fraction. -/
theorem parseFloatCore_ok (ds rest : List Char) (hne : ds ≠ [])
    (hdig : ∀ c ∈ ds, Char.isDigit c = true)
    (hrest : rest = [] ∨ ∃ fs, fs ≠ [] ∧ (∀ d ∈ fs, Char.isDigit d = true) ∧
      rest = '.' :: fs) :
    (parseFloatCore (ds ++ rest)).isSome = true := by
  have h1 : (ds ++ rest).takeWhile Char.isDigit = ds ++ rest.takeWhile Char.isDigit :=
    takeWhile_append_of_all hdig
  have h2 : (ds ++ rest).dropWhile Char.isDigit = rest.dropWhile Char.isDigit :=
    dropWhile_append_of_all hdig
  have hdot : ('.').isDigit = false := by decide
  rcases hrest with rfl | ⟨fs, hfs, hfsdig, rfl⟩
  · have e1 : (ds ++ ([] : List Char)).takeWhile Char.isDigit = ds := by
      rw [h1]
      simp
    have e2 : (ds ++ ([] : List Char)).dropWhile Char.isDigit = [] := by
      rw [h2]
      simp
    simp only [parseFloatCore, e1, e2]
    rw [if_neg hne]
    rfl
  · have e1 : (ds ++ '.' :: fs).takeWhile Char.isDigit = ds := by
      rw [h1]
      simp [List.takeWhile_cons, hdot]
    have e2 : (ds ++ '.' :: fs).dropWhile Char.isDigit = '.' :: fs := by
      rw [h2]
      simp [List.dropWhile_cons, hdot]
    simp only [parseFloatCore, e1, e2]
    rw [if_pos ⟨List.all_eq_true.mpr hfsdig, Or.inl hne⟩]
    rfl

/-- `parseFloatQ` succeeds on every comma-normalized shaped number: the
model of the fact that `float()` cannot fail on a matched group 1. -/
theorem parseFloatQ_of_numShape {n : List Char} (h : numShape n) :
    (parseFloatQ (String.mk (n.map (fun c => if c = ',' then '.' else c)))).isSome = true := by
  obtain ⟨sgn, ds, fr, rfl, hsgn, hne, hdig, hfr⟩ := h
  have hid : ∀ c ∈ ds, (if c = ',' then '.' else c) = c := by
    intro c hc
    have hd := hdig c hc
    by_cases hcc : c = ','
    · subst hcc
      simp at hd
    · simp [hcc]
  have hmapds : ds.map (fun c => if c = ',' then '.' else c) = ds :=
    (List.map_congr_left hid).trans (List.map_id' ds)
  have hfr2 : fr.map (fun c => if c = ',' then '.' else c) = [] ∨
      ∃ fs, fs ≠ [] ∧ (∀ d ∈ fs, Char.isDigit d = true) ∧
        fr.map (fun c => if c = ',' then '.' else c) = '.' :: fs := by
    rcases hfr with rfl | ⟨c, fs, hc, hfs, hfsdig, rfl⟩
    · exact Or.inl rfl
    · right
      refine ⟨fs, hfs, hfsdig, ?_⟩
      have hmfs : fs.map (fun c => if c = ',' then '.' else c) = fs := by
        refine (List.map_congr_left ?_).trans (List.map_id' fs)
        intro d hd
        have hdd := hfsdig d hd
        by_cases hdc : d = ','
        · subst hdc
          simp at hdd
        · simp [hdc]
      have hfc : (if c = ',' then '.' else c) = '.' := by
        rcases hc with rfl | rfl
        · simp
        · simp
      simp [hfc, hmfs]
  have hcore := parseFloatCore_ok ds (fr.map (fun c => if c = ',' then '.' else c))
    hne hdig hfr2
  rcases hsgn with rfl | rfl
  · rw [List.nil_append, List.map_append, hmapds]
    have hhead : (ds ++ fr.map (fun c => if c = ',' then '.' else c)).headD ' ' ≠ '-' := by
      rcases hd0 : ds with _ | ⟨d0, ds2⟩
      · exact absurd hd0 hne
      have hd0dig := hdig d0 (by rw [hd0]; simp)
      simp only [List.cons_append, List.headD_cons]
      intro hcon
      rw [hcon] at hd0dig
      simp at hd0dig
    rw [parseFloatQ_not_minus hhead]
    exact hcore
  · have hmin : (['-'] ++ ds ++ fr).map (fun c => if c = ',' then '.' else c) =
        '-' :: (ds ++ fr.map (fun c => if c = ',' then '.' else c)) := by
      simp only [List.map_append, hmapds, List.append_assoc]
      simp
    rw [hmin]
    rw [parseFloatQ_minus]
    cases hco : parseFloatCore (ds ++ fr.map (fun c => if c = ',' then '.' else c)) with
    | none =>
      rw [hco] at hcore
      simp at hcore
    | some q => simp

/-- A successful anchored inline match has a shaped number group and a
case-variant of some unit token as group 2. -/
theorem inlineMatchAt_spec {cs : List Char} {m : List Char × List Char}
    (h : inlineMatchAt cs = some m) :
    numShape m.1 ∧ ∃ t ∈ unitTokens, m.2.map Char.toLower = t.data.map Char.toLower := by
  unfold inlineMatchAt at h
  obtain ⟨nr, hnr, hmap⟩ := List.exists_of_findSome?_eq_some h
  cases hu : tryUnits unitTokens (nr.2.dropWhile pythonWs) with
  | none =>
    rw [hu] at hmap
    simp at hmap
  | some u =>
    rw [hu] at hmap
    have hm : (nr.1, u) = m := by simpa using hmap
    subst hm
    refine ⟨@numberCandidates_shape cs nr hnr, ?_⟩
    obtain ⟨t, ht, hat⟩ := tryUnits_mem hu
    exact ⟨t, ht, unitTokenAt_lower hat⟩

/-- A successful search is a successful anchored match at some suffix. -/
theorem searchInline_exists {cs : List Char} {m : List Char × List Char}
    (h : searchInline cs = some m) :
    ∃ cs2, inlineMatchAt cs2 = some m := by
  induction cs with
  | nil => simp [searchInline] at h
  | cons c rest ih =>
    simp only [searchInline] at h
    cases hm : inlineMatchAt (c :: rest) with
    | some m2 =>
      rw [hm] at h
      have h2 : some m2 = some m := h
      exact ⟨c :: rest, by rw [hm, Option.some_inj.mp h2]⟩
    | none =>
      rw [hm] at h
      exact ih h

/-- C10 as stated is false: the scanner reports the unit text as matched,
so `"5 MG/DL"` yields the unit `"MG/DL"`, which is not among the enumerated
tokens (it only matches one case-insensitively). -/
theorem C10_counterexample :
    find_value_and_unit "5 MG/DL" = (some 5, some "MG/DL") ∧ "MG/DL" ∉ unitTokens :=
  ⟨by with_unfolding_all rfl, by decide⟩

/-- C10 (amended): whenever `find_value_and_unit` returns a non-`None`
unit, it also returns a non-`None` value, and the returned unit matches one
of the fixed enumerated inline unit tokens case-insensitively (the regex is
compiled with IGNORECASE and reports the text as matched). -/
theorem C10_unit_implies_value (s : String) (v : Option ℚ) (u : String)
    (h : find_value_and_unit s = (v, some u)) :
    v.isSome = true ∧ ∃ t ∈ unitTokens, lowerStr u = lowerStr t := by
  simp only [find_value_and_unit] at h
  cases hs : searchInline (clean_text s).data with
  | none =>
    rw [hs] at h
    split at h
    all_goals try split at h
    all_goals simp_all
  | some m =>
    rw [hs] at h
    simp only [Prod.mk.injEq] at h
    obtain ⟨hv, hu⟩ := h
    obtain ⟨cs2, hat⟩ := searchInline_exists hs
    obtain ⟨hshape, hex⟩ := inlineMatchAt_spec hat
    obtain ⟨t, ht, hmap⟩ := hex
    constructor
    · rw [← hv]
      exact parseFloatQ_of_numShape hshape
    · refine ⟨t, ht, ?_⟩
      rw [← Option.some_inj.mp hu]
      show String.mk (m.2.map Char.toLower) = String.mk (t.data.map Char.toLower)
      rw [hmap]

/-- Closed witness for C10 (amended) at a concrete scanned string. -/
theorem C10_unit_implies_value_witness :
    (some (12 : ℚ)).isSome = true ∧ ∃ t ∈ unitTokens, lowerStr "mg/dl" = lowerStr t :=
  C10_unit_implies_value "12 mg/dl" (some 12) "mg/dl" (by with_unfolding_all rfl)

/-- The `extract_all` dedup fold with generalized state: the result is the
accumulator followed by the `seen`-aware first-occurrence filter. -/
theorem dedup_foldl_eq (ts : List Triple) :
    ∀ (seen : List (String × Option ℚ × String)) (acc : List Triple),
    (ts.foldl
      (fun (st : List (String × Option ℚ × String) × List Triple) t =>
        let k := tripleKey t
        if k ∈ st.1 then st else (k :: st.1, st.2 ++ [t]))
      (seen, acc)).2 = acc ++ keepFirstsSeen tripleKey seen ts := by
  induction ts with
  | nil => simp [keepFirstsSeen]
  | cons t ts ih =>
    intro seen acc
    simp only [List.foldl_cons, keepFirstsSeen]
    by_cases hk : tripleKey t ∈ seen
    · rw [if_pos hk, if_pos hk]
      exact ih seen acc
    · rw [if_neg hk, if_neg hk]
      rw [ih (tripleKey t :: seen) (acc ++ [t])]
      simp

/-- The `seen`-aware filter is `keepFirsts` of the unseen elements. -/
theorem keepFirstsSeen_eq {α β : Type} [DecidableEq β] (key : α → β) :
    ∀ (ts : List α) (seen : List β),
    keepFirstsSeen key seen ts = keepFirsts key (ts.filter (fun t => key t ∉ seen)) := by
  intro ts
  induction ts with
  | nil => intro seen; simp [keepFirstsSeen, keepFirsts]
  | cons t ts ih =>
    intro seen
    by_cases hk : key t ∈ seen
    · simp only [keepFirstsSeen, if_pos hk]
      rw [ih]
      congr 1
      rw [List.filter_cons]
      simp [hk]
    · simp only [keepFirstsSeen, if_neg hk]
      rw [ih]
      have hstep : (t :: ts).filter (fun y => key y ∉ seen) =
          t :: ts.filter (fun y => key y ∉ seen) := by
        simp [hk]
      rw [hstep]
      simp only [keepFirsts]
      congr 1
      rw [List.filter_filter]
      refine congrArg (keepFirsts key) ?_
      apply List.filter_congr
      intro a _
      by_cases h1 : key a = key t <;> by_cases h2 : key a ∈ seen <;> simp [h1, h2]

/-- The imperative dedup of `extract_all` equals the declarative
first-occurrence filter. -/
theorem dedupTriples_eq_keepFirsts (ts : List Triple) :
    dedupTriples ts = keepFirsts tripleKey ts := by
  unfold dedupTriples
  rw [dedup_foldl_eq ts [] []]
  rw [keepFirstsSeen_eq]
  simp

/-- `keepFirsts` is a sublist of its input: kept elements stay in their
original positions. -/
theorem keepFirsts_sublist {α β : Type} [DecidableEq β] (key : α → β) :
    ∀ ts : List α, (keepFirsts key ts).Sublist ts
  | [] => by simp [keepFirsts]
  | t :: ts => by
    simp only [keepFirsts]
    exact List.Sublist.cons₂ t
      ((keepFirsts_sublist key (ts.filter (fun y => key y ≠ key t))).trans
        (List.filter_sublist ts))
  termination_by ts => ts.length
  decreasing_by
    refine Nat.lt_of_le_of_lt (List.length_filter_le _ _) ?_
    simp only [List.length_cons]
    exact Nat.lt_succ_self _

/-- No two kept elements share a key: every later duplicate is removed. -/
theorem keepFirsts_pairwise {α β : Type} [DecidableEq β] (key : α → β) :
    ∀ ts : List α, (keepFirsts key ts).Pairwise (fun a b => key a ≠ key b)
  | [] => by simp [keepFirsts]
  | t :: ts => by
    simp only [keepFirsts]
    refine List.Pairwise.cons ?_ (keepFirsts_pairwise key _)
    intro b hb
    have hb2 := (keepFirsts_sublist key _).subset hb
    have hb3 := List.of_mem_filter hb2
    intro hcon
    rw [hcon] at hb3
    simp at hb3
  termination_by ts => ts.length
  decreasing_by
    refine Nat.lt_of_le_of_lt (List.length_filter_le _ _) ?_
    simp only [List.length_cons]
    exact Nat.lt_succ_self _

/-- Every input element's key survives in the kept list. -/
theorem keepFirsts_keys_complete {α β : Type} [DecidableEq β] (key : α → β) :
    ∀ ts : List α, ∀ t ∈ ts, ∃ t2 ∈ keepFirsts key ts, key t2 = key t
  | [] => by simp
  | x :: ts => by
    intro t ht
    simp only [keepFirsts]
    rcases List.mem_cons.mp ht with heq | hts
    · exact ⟨x, List.mem_cons_self x _, by rw [heq]⟩
    by_cases hk : key t = key x
    · exact ⟨x, List.mem_cons_self x _, hk.symm⟩
    · obtain ⟨t2, ht2, hkey⟩ := keepFirsts_keys_complete key
        (ts.filter (fun y => key y ≠ key x)) t
        (List.mem_filter.mpr ⟨hts, by simpa using hk⟩)
      exact ⟨t2, List.mem_cons_of_mem x ht2, hkey⟩
  termination_by ts => ts.length
  decreasing_by
    refine Nat.lt_of_le_of_lt (List.length_filter_le _ _) ?_
    simp only [List.length_cons]
    exact Nat.lt_succ_self _

/-- C3 as stated is false: on `pagesCE` the gathered candidates are the two
distinct case-variant triples, yet `extract_all` drops the second — a later
triple is removed although no earlier triple is identical to it (the code's
key lowercases the label and the unit). -/
theorem C3_counterexample :
    gatherTriples pagesCE =
      Except.ok [("Abc", some 5, some "x"), ("ABC", some 5, some "X")] ∧
    extract_all pagesCE = Except.ok [("Abc", some 5, some "x")] ∧
    (("ABC", some 5, some "X") : Triple) ≠ ("Abc", some 5, some "x") :=
  ⟨by with_unfolding_all rfl, by with_unfolding_all rfl, by decide⟩

/-- C3 (amended): whenever candidate gathering succeeds with list `ts`,
`extract_all` returns exactly the first-occurrence filter of `ts` under the
case-insensitive key `(label.lower(), value, (unit or "").lower())`: kept
triples stay in page-then-in-page order (a sublist), no two kept triples
share a key, and every input key is represented. -/
theorem C3_extract_all_dedup (pages : List Page) (ts : List Triple)
    (h : gatherTriples pages = Except.ok ts) :
    extract_all pages = Except.ok (keepFirsts tripleKey ts) ∧
    (keepFirsts tripleKey ts).Sublist ts ∧
    (keepFirsts tripleKey ts).Pairwise (fun a b => tripleKey a ≠ tripleKey b) ∧
    ∀ t ∈ ts, ∃ t2 ∈ keepFirsts tripleKey ts, tripleKey t2 = tripleKey t := by
  refine ⟨?_, keepFirsts_sublist tripleKey ts, keepFirsts_pairwise tripleKey ts,
    keepFirsts_keys_complete tripleKey ts⟩
  unfold extract_all
  rw [h]
  show Except.ok (dedupTriples ts) = _
  rw [dedupTriples_eq_keepFirsts]

/-- Closed witness for C3 (amended) at a concrete document. -/
theorem C3_extract_all_dedup_witness :
    extract_all pagesCE =
      Except.ok (keepFirsts tripleKey
        [("Abc", some 5, some "x"), ("ABC", some 5, some "X")]) :=
  (C3_extract_all_dedup pagesCE
    [("Abc", some 5, some "x"), ("ABC", some 5, some "X")]
    (by with_unfolding_all rfl)).1

/-- `alookup` after a dict insert: the inserted key maps to the new value,
all other keys are untouched. -/
theorem alookup_dictInsert {V : Type} (m : List (String × V)) (k : String) (v : V)
    (k2 : String) :
    alookup (dictInsert m k v) k2 = if k2 = k then some v else alookup m k2 := by
  induction m with
  | nil =>
    by_cases h : k2 = k
    · subst h
      simp [dictInsert, alookup]
    · have h2 : ¬ k = k2 := fun hh => h hh.symm
      simp [dictInsert, alookup, h, h2]
  | cons kv rest ih =>
    by_cases hk : kv.1 = k
    · simp only [dictInsert, if_pos hk]
      by_cases h : k2 = k
      · subst h
        simp [alookup]
      · have h2 : ¬ k = k2 := fun hh => h hh.symm
        have h3 : ¬ kv.1 = k2 := by
          rw [hk]
          exact h2
        simp [alookup, h, h2, h3]
    · simp only [dictInsert, if_neg hk]
      by_cases h3 : kv.1 = k2
      · have h4 : ¬ k2 = k := fun hh => hk (h3.trans hh)
        simp [alookup, h3, h4]
      · simp [alookup, h3, ih]

/-- Key membership after a dict insert. -/
theorem mem_keys_dictInsert {V : Type} (m : List (String × V)) (k : String) (v : V)
    (k2 : String) :
    k2 ∈ (dictInsert m k v).map Prod.fst ↔ k2 ∈ m.map Prod.fst ∨ k2 = k := by
  induction m with
  | nil => simp [dictInsert]
  | cons kv rest ih =>
    by_cases hk : kv.1 = k
    · simp only [dictInsert, if_pos hk, List.map_cons, List.mem_cons]
      rw [hk]
      tauto
    · simp only [dictInsert, if_neg hk, List.map_cons, List.mem_cons, ih]
      tauto

/-- Lookup in a fold of key-determined dict inserts. -/
theorem alookup_foldl_dictInsert {V : Type} (f : String → V) (ks : List String)
    (m0 : List (String × V)) (k : String) :
    alookup (ks.foldl (fun m k2 => dictInsert m k2 (f k2)) m0) k =
      if k ∈ ks then some (f k) else alookup m0 k := by
  induction ks generalizing m0 with
  | nil => simp
  | cons k2 ks ih =>
    simp only [List.foldl_cons]
    rw [ih]
    by_cases hmem : k ∈ ks
    · simp [hmem]
    · simp only [if_neg hmem, alookup_dictInsert]
      by_cases hk : k = k2
      · subst hk
        simp
      · simp [hk, hmem]

/-- Key membership in a fold of dict inserts. -/
theorem mem_keys_foldl_dictInsert {V : Type} (f : String → V) (ks : List String)
    (m0 : List (String × V)) (k : String) :
    k ∈ ((ks.foldl (fun m k2 => dictInsert m k2 (f k2)) m0).map Prod.fst) ↔
      k ∈ m0.map Prod.fst ∨ k ∈ ks := by
  induction ks generalizing m0 with
  | nil => simp
  | cons k2 ks ih =>
    simp only [List.foldl_cons]
    rw [ih, mem_keys_dictInsert]
    simp only [List.mem_cons]
    tauto

/-- C1: for every similarity oracle, synonym table, registry, triple list
and strict level, the mapping returned by `normalize_triples_with_nulls`
has key set exactly the canonical names of the registry, and every registry
parameter with no accepted candidate (absent from `normalize_triples`) maps
to `{"value": None, "unit": None}`. -/
theorem C1_registry_completeness (o : SimOracle) (syns : SynTable)
    (triples : List Triple) (reg : CanonicalRegistry) (lvl : Int) :
    ((normalize_triples_with_nulls o syns triples reg lvl).map Prod.fst).toFinset =
      (reg.parameters.map CanonicalParam.name).toFinset ∧
    ∀ p ∈ reg.parameters,
      alookup (normalize_triples o syns triples reg lvl) p.name = none →
      alookup (normalize_triples_with_nulls o syns triples reg lvl) p.name =
        some ⟨none, none⟩ := by
  have hfold : normalize_triples_with_nulls o syns triples reg lvl =
      (reg.parameters.map CanonicalParam.name).foldl
        (fun m k2 => dictInsert m k2
          (match alookup (normalize_triples o syns triples reg lvl) k2 with
           | some v => v
           | none => ⟨none, none⟩)) [] := by
    unfold normalize_triples_with_nulls
    rw [List.foldl_map]
  constructor
  · ext k
    simp only [List.mem_toFinset]
    rw [hfold, mem_keys_foldl_dictInsert]
    simp
  · intro p hp hnone
    rw [hfold, alookup_foldl_dictInsert]
    rw [if_pos (List.mem_map.mpr ⟨p, hp, rfl⟩)]
    rw [hnone]

/-- Closed witness for C1 on a one-parameter registry with no triples. -/
theorem C1_registry_completeness_witness :
    alookup (normalize_triples_with_nulls oracleZero [] [] regOne 1) "A" =
      some ⟨none, none⟩ := by
  have h := (C1_registry_completeness oracleZero [] [] regOne 1).2
    ⟨"A", none, "mg/dl", 1⟩ (by simp [regOne])
  exact h (by with_unfolding_all rfl)

end BloodPdf
